import Mathlib

/-!
Shallow embedding of `apollo-link-kappa` (`src/link.js`) and proofs about the
properties of its field-resolution engine, result normalizer, operation
dispatcher and subscription manager.

JavaScript values are modelled by the inductive `JsValue`; machine-level
details that the code never depends on (NaN, prototype chains, getters) are
out of scope.  Objects are association lists of string keys; JS object
literal evaluation (`{...a, k: v}` and `{k: v, ...a}`) is modelled by folding
`setField`, which — like JS property assignment — replaces the value of an
existing key in place and appends fresh keys at the end.
-/

set_option maxHeartbeats 1000000

namespace ApolloKappa

/-- JsValue models the JavaScript values that flow through `link.js`:
`undefined`, `null`, booleans, numbers (integral model; the code never does
arithmetic), strings, plain objects (ordered association lists) and arrays. -/
inductive JsValue where
  | undefined
  | null
  | bool (b : Bool)
  | num (n : Int)
  | str (s : String)
  | obj (fields : List (String × JsValue))
  | arr (elems : List JsValue)
deriving Repr

/-- Decidable equality for `JsValue` (structural, matching JS deep equality of
data produced by the link). -/
def beqJsValue : JsValue → JsValue → Bool
  | .undefined, .undefined => true
  | .null, .null => true
  | .bool a, .bool b => a == b
  | .num a, .num b => a == b
  | .str a, .str b => a == b
  | .obj a, .obj b => beqFields a b
  | .arr a, .arr b => beqElems a b
  | _, _ => false
where
  beqFields : List (String × JsValue) → List (String × JsValue) → Bool
    | [], [] => true
    | (k₁, v₁) :: r₁, (k₂, v₂) :: r₂ => k₁ == k₂ && beqJsValue v₁ v₂ && beqFields r₁ r₂
    | _, _ => false
  beqElems : List JsValue → List JsValue → Bool
    | [], [] => true
    | v₁ :: r₁, v₂ :: r₂ => beqJsValue v₁ v₂ && beqElems r₁ r₂
    | _, _ => false

mutual

theorem beqJsValue_refl : (v : JsValue) → beqJsValue v v = true
  | .undefined => rfl
  | .null => rfl
  | .bool b => by simp [beqJsValue]
  | .num n => by simp [beqJsValue]
  | .str s => by simp [beqJsValue]
  | .obj fs => by simp [beqJsValue, beqFields_refl fs]
  | .arr xs => by simp [beqJsValue, beqElems_refl xs]

theorem beqFields_refl : (fs : List (String × JsValue)) → beqJsValue.beqFields fs fs = true
  | [] => rfl
  | (k, v) :: r => by simp [beqJsValue.beqFields, beqJsValue_refl v, beqFields_refl r]

theorem beqElems_refl : (xs : List JsValue) → beqJsValue.beqElems xs xs = true
  | [] => rfl
  | v :: r => by simp [beqJsValue.beqElems, beqJsValue_refl v, beqElems_refl r]

end

mutual

theorem eq_of_beqJsValue : {a b : JsValue} → beqJsValue a b = true → a = b
  | .undefined, .undefined, _ => rfl
  | .null, .null, _ => rfl
  | .bool _, .bool _, h => by simpa [beqJsValue] using congrArg JsValue.bool (by simpa [beqJsValue] using h)
  | .num _, .num _, h => by simpa [beqJsValue] using congrArg JsValue.num (by simpa [beqJsValue] using h)
  | .str _, .str _, h => by simpa [beqJsValue] using congrArg JsValue.str (by simpa [beqJsValue] using h)
  | .obj a, .obj b, h => congrArg JsValue.obj (eq_of_beqFields (by simpa [beqJsValue] using h))
  | .arr a, .arr b, h => congrArg JsValue.arr (eq_of_beqElems (by simpa [beqJsValue] using h))

theorem eq_of_beqFields : {a b : List (String × JsValue)} → beqJsValue.beqFields a b = true → a = b
  | [], [], _ => rfl
  | (k₁, v₁) :: r₁, (k₂, v₂) :: r₂, h => by
    simp only [beqJsValue.beqFields, Bool.and_eq_true] at h
    obtain ⟨⟨hk, hv⟩, hr⟩ := h
    rw [eq_of_beq hk, eq_of_beqJsValue hv, eq_of_beqFields hr]

theorem eq_of_beqElems : {a b : List JsValue} → beqJsValue.beqElems a b = true → a = b
  | [], [], _ => rfl
  | v₁ :: r₁, v₂ :: r₂, h => by
    simp only [beqJsValue.beqElems, Bool.and_eq_true] at h
    obtain ⟨hv, hr⟩ := h
    rw [eq_of_beqJsValue hv, eq_of_beqElems hr]

end

instance : DecidableEq JsValue := fun a b =>
  if h : beqJsValue a b = true then
    .isTrue (eq_of_beqJsValue h)
  else
    .isFalse (fun he => h (he ▸ beqJsValue_refl a))

/-- JS truthiness of a value (`if (x)`), as used by `link.js`'s guards. -/
def truthy : JsValue → Bool
  | .undefined => false
  | .null => false
  | .bool b => b
  | .num n => n != 0
  | .str s => s != ""
  | .obj _ => true
  | .arr _ => true

/-- First-match association-list lookup: JS own-property access on plain
objects (keys of a real JS object are unique, so first match is the match). -/
def lookupField {α : Type} : List (String × α) → String → Option α
  | [], _ => none
  | (k', v) :: rest, k => if k' = k then some v else lookupField rest k

/-- JS property assignment `o[k] = v` on an association list: replaces the
value at the first occurrence of `k` keeping its position, or appends a fresh
key at the end — exactly JS insertion-order semantics. -/
def setField {α : Type} : List (String × α) → String → α → List (String × α)
  | [], k, v => [(k, v)]
  | (k', v') :: rest, k, v =>
    if k' = k then (k, v) :: rest else (k', v') :: setField rest k v

/-- Keys of an association list in order. -/
def fieldKeys {α : Type} (fs : List (String × α)) : List String :=
  fs.map Prod.fst

/-- Evaluation of a JS object literal that starts from the fields `base` and
then assigns every property of `extra` in order (the semantics of spreading
`extra` after `base` in an object literal). -/
def spreadOnto {α : Type} (base : List (String × α)) (extra : List (String × α)) :
    List (String × α) :=
  extra.foldl (fun acc kv => setField acc kv.1 kv.2) base

/-- Digits-only canonical array-index test for a JS property key (JS treats
`a["2"]` as `a[2]` exactly when the key is the canonical decimal string). -/
def arrayIndex? (s : String) : Option Nat :=
  if s.data ≠ [] ∧ s.data.all Char.isDigit then
    let n := s.data.foldl (fun a c => a * 10 + (c.toNat - 48)) 0
    if toString n = s then some n else none
  else none

/-- JS own-property read `v[k]`, covering the shapes `link.js` reads from:
object fields, array `length`/indices, string `length`/indices; reads on
primitives yield `undefined`. -/
def getProp (v : JsValue) (k : String) : JsValue :=
  match v with
  | .obj fs =>
    match lookupField fs k with
    | some w => w
    | none => .undefined
  | .arr xs =>
    if k = "length" then .num xs.length
    else
      match arrayIndex? k with
      | some i =>
        match xs[i]? with
        | some w => w
        | none => .undefined
      | none => .undefined
  | .str s =>
    if k = "length" then .num s.length
    else
      match arrayIndex? k with
      | some i =>
        match s.data[i]? with
        | some c => .str (String.mk [c])
        | none => .undefined
      | none => .undefined
  | _ => .undefined

/-- Fields contributed by spreading a value into an object literal
(`{...v}`): objects contribute their fields, arrays and strings contribute
index properties, other primitives contribute nothing. -/
def objSpreadFields : JsValue → List (String × JsValue)
  | .obj fs => fs
  | .arr xs => (xs.enum).map (fun p => (toString p.1, p.2))
  | .str s => (s.data.enum).map (fun p => (toString p.1, JsValue.str (String.mk [p.2])))
  | _ => []

/-- Source: `const capitalizeFirstLetter = str => str.charAt(0).toUpperCase() + str.slice(1)`. -/
def capitalizeFirstLetter (s : String) : String :=
  match s.data with
  | [] => ""
  | c :: cs => String.mk (c.toUpper :: cs)

/-- Array-element normalization `item => ({ __typename: cap, ...item })` from
the array branch of `setTypename` in `src/link.js`. -/
def kappaArrayItem (cap : String) (item : JsValue) : JsValue :=
  .obj (spreadOnto [("__typename", .str cap)] (objSpreadFields item))

/-- Source: `setTypename(data, fieldName)` of `src/link.js` (lines 26–42).
Adds a `__typename` discriminator to object/array data.  The JS guard is
`data && typeof data === 'object' && !data.__typename`; for objects the
result is `{ ...data, __typename: capitalizeFirstLetter(fieldName) }`, for
arrays each element becomes `{ __typename: cap, ...item }`. -/
def setTypename (data : JsValue) (fieldName : String) : JsValue :=
  match data with
  | .obj fs =>
    if truthy (getProp (.obj fs) "__typename") then .obj fs
    else .obj (setField fs "__typename" (.str (capitalizeFirstLetter fieldName)))
  | .arr xs =>
    if truthy (getProp (.arr xs) "__typename") then .arr xs
    else .arr (xs.map (kappaArrayItem (capitalizeFirstLetter fieldName)))
  | d => d

/-! The Field Resolver of `runQuery` (`src/link.js` lines 109–144). -/

mutual

/-- JS string coercion of a value used as a property key, as in
`resolvers[rootValue.__typename || type]`. -/
def jsToKeyString : JsValue → String
  | .undefined => "undefined"
  | .null => "null"
  | .bool b => if b then "true" else "false"
  | .num n => toString n
  | .str s => s
  | .obj _ => "[object Object]"
  | .arr xs => String.intercalate "," (jsKeyStrings xs)

/-- Elementwise conversion used by JS `Array.prototype.join`, which renders
`null` and `undefined` elements as empty strings. -/
def jsKeyStrings : List JsValue → List String
  | [] => []
  | .undefined :: rest => "" :: jsKeyStrings rest
  | .null :: rest => "" :: jsKeyStrings rest
  | v :: rest => jsToKeyString v :: jsKeyStrings rest

end

/-- Resolver-map key `rootValue.__typename || type` (`src/link.js` line 129). -/
def typenameKey (rootValue : JsValue) (type : String) : String :=
  let tn := getProp rootValue "__typename"
  if truthy tn then jsToKeyString tn else type

/-- Kappa directive payload on a query/mutation field: `@kappa(view, method)`
as extracted by `getDirectiveInfoFromField` into `info.directives.kappa`. -/
structure DirectiveKappa where
  view : String
  method : String

/-- The slice of graphql-anywhere's per-field `info` argument that the
resolver reads: the alias result key and the extracted kappa directive
(`none` models both `directives` undefined and `directives.kappa` null). -/
structure ResolverInfo where
  resultKey : String
  kappa : Option DirectiveKappa

/-- An entry of the caller-supplied resolver map: either a resolver function
`(parent, args, context, info) => data` or a plain value (the JS code decides
with `typeof resolve === 'function'`). -/
inductive ResolverEntry where
  | fn (f : JsValue → JsValue → JsValue → ResolverInfo → JsValue)
  | value (v : JsValue)

/-- A per-type resolver map, `none` modelling an absent (undefined) entry. -/
abbrev ResolverMap := String → Option ResolverEntry

/-- The caller-supplied resolver table keyed by type name; `none` models an
absent map (JS `resolvers[key]` yielding undefined, which is falsy). -/
abbrev Resolvers := String → Option ResolverMap

/-- Source: the per-field `resolver` closure of `runQuery` (`src/link.js`
lines 109–144).  Resolution order: kappa directive (view-API method call with
`args || undefined`), then defined alias/plain data on the parent
(`aliasedNode || preAliasingNode`), then the resolver map (function entries
are awaited and normalized; other entries — including absent ones — are
returned as-is), finally `(aliasNeeded ? aliasedNode : preAliasingNode) || null`. -/
def resolver (kappaApi : String → String → JsValue → JsValue) (resolvers : Resolvers)
    (type : String) (fieldName : String) (rootValue : JsValue) (args : JsValue)
    (context : JsValue) (info : ResolverInfo) : JsValue :=
  match info.kappa with
  | some d => kappaApi d.view d.method (if truthy args then args else .undefined)
  | none =>
    let aliasNeeded := info.resultKey != fieldName
    let aliasedNode := getProp rootValue info.resultKey
    let preAliasingNode := getProp rootValue fieldName
    if aliasedNode ≠ JsValue.undefined ∨ preAliasingNode ≠ JsValue.undefined then
      if truthy aliasedNode then aliasedNode else preAliasingNode
    else
      match resolvers (typenameKey rootValue type) with
      | some resolverMap =>
        match resolverMap fieldName with
        | some (.fn f) => setTypename (f rootValue args context info) fieldName
        | some (.value v) => v
        | none => .undefined
      | none =>
        let node := if aliasNeeded then aliasedNode else preAliasingNode
        if truthy node then node else .null

/-! Heap model of `setTypename`, making mutation observable: objects and
arrays live in an explicit append-only-unless-mutated heap, and the function
returns the heap after the call together with its result, so that
copy-on-write (the frame property of the Result Normalizer) is a real
statement rather than a triviality of a pure embedding. -/

/-- Heap-model values: primitives are immediate, objects and arrays are
references into an explicit heap. -/
inductive HVal where
  | undefined
  | null
  | bool (b : Bool)
  | num (n : Int)
  | str (s : String)
  | ref (r : Nat)
deriving DecidableEq, Repr

/-- Heap cells: plain objects and arrays. -/
inductive HEntry where
  | obj (fields : List (String × HVal))
  | arr (elems : List HVal)
deriving DecidableEq, Repr

/-- A heap is a list of cells addressed by index; allocation appends. -/
abbrev Heap := List HEntry

/-- Truthiness of a heap-model value (object/array references are truthy). -/
def truthyHV : HVal → Bool
  | .undefined => false
  | .null => false
  | .bool b => b
  | .num n => n != 0
  | .str s => s != ""
  | .ref _ => true

/-- Property read `data.__typename` in the heap model. -/
def getTypenameH (h : Heap) (v : HVal) : HVal :=
  match v with
  | .ref r =>
    match h[r]? with
    | some (.obj fs) => (lookupField fs "__typename").getD .undefined
    | _ => .undefined
  | _ => .undefined

/-- Fields contributed by `{...item}` in the heap model. -/
def spreadFieldsH (h : Heap) (item : HVal) : List (String × HVal) :=
  match item with
  | .ref r =>
    match h[r]? with
    | some (.obj fs) => fs
    | some (.arr xs) => (xs.enum).map (fun p => (toString p.1, p.2))
    | none => []
  | .str s => (s.data.enum).map (fun p => (toString p.1, HVal.str (String.mk [p.2])))
  | _ => []

/-- Per-element allocation for the array branch of `setTypename`:
`data.map(item => ({ __typename: cap, ...item }))` allocates one fresh object
per element. -/
def allocElems (cap : String) : Heap → List HVal → Heap × List HVal
  | h, [] => (h, [])
  | h, item :: rest =>
    let h₁ := h ++ [HEntry.obj (spreadOnto [("__typename", HVal.str cap)] (spreadFieldsH h item))]
    let res := allocElems cap h₁ rest
    (res.1, HVal.ref h.length :: res.2)

/-- Source: `setTypename` of `src/link.js` in the heap model.  The object
branch evaluates `{ ...data, __typename: cap }` (a fresh allocation); the
array branch maps each element to a fresh `{ __typename: cap, ...item }` and
allocates a fresh array; otherwise the value is returned as-is. -/
def setTypenameH (h : Heap) (data : HVal) (fieldName : String) : Heap × HVal :=
  match data with
  | .ref r =>
    if truthyHV (getTypenameH h data) then (h, data)
    else
      match h[r]? with
      | some (.obj fs) =>
        (h ++ [HEntry.obj (setField fs "__typename" (.str (capitalizeFirstLetter fieldName)))],
          .ref h.length)
      | some (.arr xs) =>
        let res := allocElems (capitalizeFirstLetter fieldName) h xs
        (res.1 ++ [HEntry.arr res.2], .ref res.1.length)
      | none => (h, data)
  | _ => (h, data)

/-! Document model and the Operation Dispatcher (`request`,
`src/link.js` lines 61–103). -/

/-- A field node of a parsed selection set: field name, the extracted kappa
directive arguments (if the field carries `@kappa`), and child selections. -/
inductive SelNode where
  | field (name : String) (kappa : Option (String × String)) (children : List SelNode)

/-- Pre-order flattening of a selection set, the order in which
`visit` from `graphql/language/visitor` enters Field nodes. -/
def preorder : List SelNode → List SelNode
  | [] => []
  | .field nm k cs :: rest => .field nm k cs :: (preorder cs ++ preorder rest)

/-- Whether a field node carries the kappa directive. -/
def isKappaField : SelNode → Bool
  | .field _ k _ => k.isSome

/-- Source: `hasDirectives(['kappa'], operation.query)` — does any field of
the document carry the reserved directive? -/
def hasKappaDirective (doc : List SelNode) : Bool :=
  (preorder doc).any isKappaField

/-- The slice of an apollo-link operation that `request` reads: the main
definition's operation kind (`none` when absent), the root selection set, the
variables (`vars`, since `variables` is reserved in Lean), and the mutable
context bag. -/
structure Operation where
  opKind : Option String
  selections : List SelNode
  vars : JsValue
  context : JsValue

/-- Source: `normalizeTypeDefs` (`src/link.js` lines 11–18), modelled for
string type definitions: trim each and join with newlines. -/
def normalizeTypeDefs (typeDefs : List String) : String :=
  String.intercalate "\n" (typeDefs.map String.trim)

/-- JS object update `{...v, k: w}` (apollo-link's `setContext` merges the
returned partial context into the previous context). -/
def setProp (v : JsValue) (k : String) (w : JsValue) : JsValue :=
  .obj (setField (objSpreadFields v) k w)

/-- Context update of the schemas list: `({schemas = []}) => ({schemas:
schemas.concat([{definition, directives}])})` merged into the context. -/
def contextWithSchemas (ctx : JsValue) (definition directives : String) : JsValue :=
  let schemas :=
    match getProp ctx "schemas" with
    | .arr xs => xs
    | _ => []
  setProp ctx "schemas"
    (.arr (schemas ++ [.obj [("definition", .str definition), ("directives", .str directives)]]))

/-- The context extension `request` performs before anything else: the
optional schemas contribution (when `typeDefs` is configured) followed by
`{...prevContext, kappa}`. -/
def withKappaContext (typeDefs : Option (List String)) (kappaVal : JsValue)
    (op : Operation) : Operation :=
  let op₁ :=
    match typeDefs with
    | some tds =>
      let ctx := contextWithSchemas op.context (normalizeTypeDefs tds) "directive @kappa on FIELD"
      { op with context := ctx }
    | none => op
  { op₁ with context := setProp op₁.context "kappa" kappaVal }

/-- Outcome of `KappaLink.request`: the value returned by `forward`
(pass-through), JS `undefined` (no kappa directive and no `forward`), entry
into `runQuery` or `runSubscription`, or the logged invalid-type error. -/
inductive RequestResult where
  | forwardResult (v : JsValue)
  | undefinedResult
  | ranQuery (type : String) (op : Operation)
  | ranSubscription (type : String) (op : Operation)
  | invalidType (type : String)

/-- Source: `KappaLink.request` (`src/link.js` lines 61–103).  Extends the
context, tests ownership with `hasDirectives(['kappa'], …)`, and either
passes through to `forward` (or stops when absent) or classifies the
operation (`capitalizeFirstLetter(def.operation || 'Query')`) and routes. -/
def request (typeDefs : Option (List String)) (kappaVal : JsValue) (op : Operation)
    (forward : Option (Operation → JsValue)) : RequestResult :=
  let op₂ := withKappaContext typeDefs kappaVal op
  if ¬ hasKappaDirective op₂.selections then
    match forward with
    | some f => .forwardResult (f op₂)
    | none => .undefinedResult
  else
    let type := capitalizeFirstLetter (op₂.opKind.getD "Query")
    if type = "Mutation" ∨ type = "Query" then .ranQuery type op₂
    else if type = "Subscription" then .ranSubscription type op₂
    else .invalidType type

/-! The Subscription Manager (`runSubscription`, `src/link.js` lines
165–244), modelled as a small state machine for a single `subscribe` call
against the one-shot replayable `kappa.ready` gate and the per-view event
emitter. -/

/-- The subscription-resolver entry for a field name under the `Subscription`
type: the optional `filter(data, args)` function (its JS return value is
tested for truthiness). -/
structure SubEntry where
  filter : Option (JsValue → JsValue → JsValue)

/-- Destructuring `const { filter } = subscriptionResolvers[name] || {}`. -/
def subFilter (subResolvers : String → Option SubEntry) (name : String) :
    Option (JsValue → JsValue → JsValue) :=
  match subResolvers name with
  | some e => e.filter
  | none => none

/-- Everything the bound subscription listener closes over: the field name,
the `(view, event)` pair from the directive, the optional filter, and
`operation.variables` (the `args` the resolver is invoked with). -/
structure Binding where
  name : String
  view : String
  event : String
  filter : Option (JsValue → JsValue → JsValue)
  args : JsValue

/-- Binding derived by `runSubscription`: the first field of the document (in
the visitor's pre-order) carrying the kappa directive, with its `(view,
event)` arguments and the optional filter from the Subscription resolver map. -/
def bindingOf (doc : List SelNode) (subResolvers : String → Option SubEntry)
    (vars : JsValue) : Option Binding :=
  match (preorder doc).find? (fun n => isKappaField n) with
  | some (.field nm (some (v, e)) _) =>
    some { name := nm, view := v, event := e, filter := subFilter subResolvers nm,
           args := vars }
  | _ => none

/-- State of one `subscribe` call of the object `runSubscription` returns:
whether the kappa `ready` gate has fired, whether the subscribe callback is
still queued on the gate, whether the `onEvent` listener is currently
registered on the view's emitter, and whether the closure-local `unsubscribe`
variable has been assigned. -/
structure SubState where
  readyFired : Bool
  cbQueued : Bool
  listenerBound : Bool
  unsubVar : Bool
deriving DecidableEq, Repr

/-- State before `subscribe` is called and before the gate fires. -/
def initialSubState : SubState :=
  { readyFired := false, cbQueued := false, listenerBound := false, unsubVar := false }

/-- External actions driving one subscription: the `subscribe(observer)`
call, the kappa readiness gate firing, the returned handle's `unsubscribe()`,
and the view emitter firing `event` on `view` with a payload. -/
inductive SubAction where
  | subscribeCall
  | readyFire
  | unsubCall
  | emitEvent (view event : String) (payload : JsValue)

/-- The emission `observer.next({ data: { [name]: setTypename(data, name) } })`
produced by the wrapped `next` of `runSubscription`. -/
def mkEmission (b : Binding) (d : JsValue) : JsValue :=
  .obj [("data", .obj [(b.name, setTypename d b.name)])]

/-- One step of the subscription state machine, returning the successor state
and the list of emissions the step produces.  `subscribeCall` runs its body
immediately when the gate has fired (the gate is replayable) and queues it
otherwise; `readyFire` runs any queued body, which registers the listener and
assigns the closure's `unsubscribe` variable; `unsubCall` runs the stored
teardown only if that variable is assigned (`if (unsubscribe) …`) and is a
silent no-op otherwise; `emitEvent` invokes the listener when it is bound and
the `(view, event)` pair matches, subject to the filter's truthiness. -/
def stepSub (b : Binding) (s : SubState) : SubAction → SubState × List JsValue
  | .subscribeCall =>
    if s.readyFired then
      ({ s with listenerBound := true, unsubVar := true }, [])
    else
      ({ s with cbQueued := true }, [])
  | .readyFire =>
    if s.readyFired then (s, [])
    else if s.cbQueued then
      ({ s with readyFired := true, cbQueued := false, listenerBound := true, unsubVar := true }, [])
    else
      ({ s with readyFired := true }, [])
  | .unsubCall =>
    if s.unsubVar then ({ s with listenerBound := false }, []) else (s, [])
  | .emitEvent v e d =>
    if s.listenerBound && v == b.view && e == b.event then
      match b.filter with
      | some f => if truthy (f d b.args) then (s, [mkEmission b d]) else (s, [])
      | none => (s, [mkEmission b d])
    else
      (s, [])

/-- Run a sequence of actions from a state, collecting emissions in order. -/
def runSub (b : Binding) (s : SubState) : List SubAction → SubState × List JsValue
  | [] => (s, [])
  | a :: rest =>
    let r₁ := stepSub b s a
    let r₂ := runSub b r₁.1 rest
    (r₂.1, r₁.2 ++ r₂.2)

/-! Association-list lemmas about `setField`, `lookupField` and `spreadOnto`,
used to reason about the JS object-literal evaluation inside `setTypename`. -/

@[simp] theorem fieldKeys_nil {α : Type} : fieldKeys ([] : List (String × α)) = [] := rfl

@[simp] theorem fieldKeys_cons {α : Type} (k : String) (v : α) (rest : List (String × α)) :
    fieldKeys ((k, v) :: rest) = k :: fieldKeys rest := rfl

theorem lookupField_setField {α : Type} (fs : List (String × α)) (k₁ k : String) (v₁ : α) :
    lookupField (setField fs k₁ v₁) k = if k₁ = k then some v₁ else lookupField fs k := by
  induction fs with
  | nil => by_cases h : k₁ = k <;> simp [setField, lookupField, h]
  | cons p rest ih =>
    obtain ⟨k', v'⟩ := p
    by_cases h : k' = k₁
    · subst h
      by_cases hk : k' = k <;> simp [setField, lookupField, hk]
    · by_cases hk : k' = k
      · subst hk
        have hne : ¬ k₁ = k' := fun hh => h hh.symm
        simp [setField, lookupField, h, hne]
      · simp [setField, lookupField, h, hk, ih]

theorem lookupField_setField_self {α : Type} (fs : List (String × α)) (k : String) (v : α) :
    lookupField (setField fs k v) k = some v := by
  rw [lookupField_setField, if_pos rfl]

theorem setField_setField_same {α : Type} (fs : List (String × α)) (k : String) (v w : α) :
    setField (setField fs k v) k w = setField fs k w := by
  induction fs with
  | nil => simp [setField]
  | cons p rest ih =>
    obtain ⟨k', v'⟩ := p
    by_cases h : k' = k <;> simp [setField, h, ih]

theorem mem_fieldKeys_of_lookup {α : Type} {k : String} {w : α} :
    ∀ {fs : List (String × α)}, lookupField fs k = some w → k ∈ fieldKeys fs := by
  intro fs
  induction fs with
  | nil => intro h; simp [lookupField] at h
  | cons p rest ih =>
    obtain ⟨k', v'⟩ := p
    intro h
    by_cases hk : k' = k
    · simp [hk]
    · simp only [lookupField, if_neg hk] at h
      simp [ih h]

theorem fieldKeys_setField {α : Type} (fs : List (String × α)) (k : String) (v : α) :
    fieldKeys (setField fs k v) =
      if k ∈ fieldKeys fs then fieldKeys fs else fieldKeys fs ++ [k] := by
  induction fs with
  | nil => simp [setField]
  | cons p rest ih =>
    obtain ⟨k', v'⟩ := p
    by_cases h : k' = k
    · subst h
      simp [setField]
    · have hne : ¬ k = k' := fun hh => h hh.symm
      by_cases hm : k ∈ fieldKeys rest <;>
        simp [setField, h, hne, hm, ih]

theorem nodup_fieldKeys_setField {α : Type} {fs : List (String × α)} (k : String) (v : α)
    (h : (fieldKeys fs).Nodup) : (fieldKeys (setField fs k v)).Nodup := by
  rw [fieldKeys_setField]
  by_cases hm : k ∈ fieldKeys fs
  · simpa [hm] using h
  · rw [if_neg hm]
    refine h.append (List.nodup_singleton k) ?_
    intro a ha hak
    simp only [List.mem_singleton] at hak
    exact hm (hak ▸ ha)

theorem setField_of_notMem {α : Type} {fs : List (String × α)} {k : String} (v : α)
    (h : k ∉ fieldKeys fs) : setField fs k v = fs ++ [(k, v)] := by
  induction fs with
  | nil => simp [setField]
  | cons p rest ih =>
    obtain ⟨k', v'⟩ := p
    simp only [fieldKeys_cons, List.mem_cons] at h
    push_neg at h
    have h1 : ¬ k' = k := fun hh => h.1 hh.symm
    simp [setField, h1, ih h.2]

theorem fieldKeys_append {α : Type} (a b : List (String × α)) :
    fieldKeys (a ++ b) = fieldKeys a ++ fieldKeys b := by
  simp [fieldKeys]

theorem spreadOnto_fresh {α : Type} :
    ∀ (t acc : List (String × α)), (fieldKeys t).Nodup →
      (∀ x ∈ fieldKeys t, x ∉ fieldKeys acc) → spreadOnto acc t = acc ++ t
  | [], acc, _, _ => by simp [spreadOnto]
  | (k₁, v₁) :: t₁, acc, hnd, hfresh => by
    simp only [fieldKeys_cons, List.nodup_cons] at hnd
    have hk₁ : k₁ ∉ fieldKeys acc := hfresh k₁ (by simp)
    have hstep : spreadOnto acc ((k₁, v₁) :: t₁) = spreadOnto (setField acc k₁ v₁) t₁ := rfl
    rw [hstep, setField_of_notMem v₁ hk₁]
    have hfresh' : ∀ x ∈ fieldKeys t₁, x ∉ fieldKeys (acc ++ [(k₁, v₁)]) := by
      intro x hx
      rw [fieldKeys_append]
      simp only [List.mem_append, fieldKeys_cons, fieldKeys_nil, List.mem_singleton]
      push_neg
      refine ⟨hfresh x (by simp [hx]), ?_⟩
      intro hh
      exact hnd.1 (hh ▸ hx)
    rw [spreadOnto_fresh t₁ (acc ++ [(k₁, v₁)]) hnd.2 hfresh']
    simp

theorem spreadOnto_cons_head {α : Type} :
    ∀ (F : List (String × α)) (k : String) (w : α) (t : List (String × α)),
      ∃ w' t', spreadOnto ((k, w) :: t) F = (k, w') :: t'
  | [], k, w, t => ⟨w, t, rfl⟩
  | (k₁, v₁) :: F', k, w, t => by
    have hstep : spreadOnto ((k, w) :: t) ((k₁, v₁) :: F')
        = spreadOnto (setField ((k, w) :: t) k₁ v₁) F' := rfl
    by_cases h : k = k₁
    · subst h
      have : setField ((k, w) :: t) k v₁ = (k, v₁) :: t := by simp [setField]
      rw [hstep, this]
      exact spreadOnto_cons_head F' k v₁ t
    · have : setField ((k, w) :: t) k₁ v₁ = (k, w) :: setField t k₁ v₁ := by
        simp [setField, h]
      rw [hstep, this]
      exact spreadOnto_cons_head F' k w (setField t k₁ v₁)

theorem nodup_fieldKeys_spreadOnto {α : Type} :
    ∀ (F acc : List (String × α)), (fieldKeys acc).Nodup →
      (fieldKeys (spreadOnto acc F)).Nodup
  | [], _, h => h
  | (k₁, v₁) :: F', acc, h =>
    nodup_fieldKeys_spreadOnto F' (setField acc k₁ v₁) (nodup_fieldKeys_setField k₁ v₁ h)

theorem lookupField_spreadOnto {α : Type} :
    ∀ (F acc : List (String × α)) (k : String), (fieldKeys F).Nodup →
      lookupField (spreadOnto acc F) k =
        (match lookupField F k with
          | some w => some w
          | none => lookupField acc k)
  | [], acc, k, _ => by simp [spreadOnto, lookupField]
  | (k₁, v₁) :: F', acc, k, hnd => by
    have hstep : spreadOnto acc ((k₁, v₁) :: F') = spreadOnto (setField acc k₁ v₁) F' := rfl
    simp only [fieldKeys_cons, List.nodup_cons] at hnd
    have hk₁ : k₁ ∉ fieldKeys F' := hnd.1
    rw [hstep, lookupField_spreadOnto F' (setField acc k₁ v₁) k hnd.2]
    cases hF : lookupField F' k with
    | some w =>
      have hkne : ¬ k₁ = k := by
        intro hh
        exact hk₁ (hh ▸ mem_fieldKeys_of_lookup hF)
      simp [lookupField, hkne, hF]
    | none =>
      by_cases hk : k₁ = k
      · subst hk
        simp [lookupField, lookupField_setField, hF]
      · simp [lookupField, hk, hF, lookupField_setField]

theorem spreadOnto_single_idem {α : Type} (k : String) (v : α) (F : List (String × α)) :
    spreadOnto [(k, v)] (spreadOnto [(k, v)] F) = spreadOnto [(k, v)] F := by
  obtain ⟨w, t', hL⟩ := spreadOnto_cons_head F k v []
  have hnd : (fieldKeys (spreadOnto [(k, v)] F)).Nodup :=
    nodup_fieldKeys_spreadOnto F [(k, v)] (by simp)
  rw [hL] at hnd ⊢
  simp only [fieldKeys_cons, List.nodup_cons] at hnd
  have hstep : spreadOnto [(k, v)] ((k, w) :: t') = spreadOnto (setField [(k, v)] k w) t' := rfl
  have hset : setField [(k, v)] k w = [(k, w)] := by simp [setField]
  have hfresh : ∀ x ∈ fieldKeys t', x ∉ fieldKeys ([(k, w)] : List (String × α)) := by
    intro x hx
    simp only [fieldKeys_cons, fieldKeys_nil, List.mem_singleton]
    intro hh
    exact hnd.1 (hh ▸ hx)
  rw [hstep, hset, spreadOnto_fresh t' [(k, w)] hnd.2 hfresh]
  rfl

theorem getProp_arr_typename (xs : List JsValue) :
    getProp (.arr xs) "__typename" = .undefined := by
  simp only [getProp]
  rw [if_neg (by decide), show arrayIndex? "__typename" = none by decide]

theorem kappaArrayItem_idem (cap : String) (item : JsValue) :
    kappaArrayItem cap (kappaArrayItem cap item) = kappaArrayItem cap item := by
  unfold kappaArrayItem
  exact congrArg JsValue.obj (spreadOnto_single_idem "__typename" (.str cap) (objSpreadFields item))

/-- Idempotence of the Result Normalizer: normalizing twice with the same
field name gives the same result as normalizing once. -/
theorem setTypename_idem (x : JsValue) (f : String) :
    setTypename (setTypename x f) f = setTypename x f := by
  cases x with
  | obj fs =>
    cases h : truthy (getProp (.obj fs) "__typename") with
    | true => simp [setTypename, h]
    | false =>
      have h1 : setTypename (.obj fs) f
          = .obj (setField fs "__typename" (.str (capitalizeFirstLetter f))) := by
        simp [setTypename, h]
      rw [h1]
      have hlook : getProp (.obj (setField fs "__typename" (.str (capitalizeFirstLetter f))))
          "__typename" = .str (capitalizeFirstLetter f) := by
        simp [getProp, lookupField_setField_self]
      by_cases hc : capitalizeFirstLetter f = ""
      · have ht : truthy (JsValue.str (capitalizeFirstLetter f)) = false := by
          simp [truthy, hc]
        simp [setTypename, hlook, ht, setField_setField_same]
      · have ht : truthy (JsValue.str (capitalizeFirstLetter f)) = true := by
          simp [truthy, hc]
        simp [setTypename, hlook, ht]
  | arr xs =>
    have harr : ∀ ys : List JsValue, setTypename (.arr ys) f
        = .arr (ys.map (kappaArrayItem (capitalizeFirstLetter f))) := by
      intro ys
      simp [setTypename, getProp_arr_typename, truthy]
    rw [harr, harr, List.map_map]
    have hpt : ∀ ys : List JsValue,
        ys.map (kappaArrayItem (capitalizeFirstLetter f) ∘ kappaArrayItem (capitalizeFirstLetter f))
          = ys.map (kappaArrayItem (capitalizeFirstLetter f)) := by
      intro ys
      induction ys with
      | nil => rfl
      | cons a t ih => simp only [List.map_cons, Function.comp, kappaArrayItem_idem, ih]
    rw [hpt]
  | undefined => rfl
  | null => rfl
  | bool b => rfl
  | num n => rfl
  | str s => rfl

theorem setTypename_arr (xs : List JsValue) (f : String) :
    setTypename (.arr xs) f = .arr (xs.map (kappaArrayItem (capitalizeFirstLetter f))) := by
  simp [setTypename, getProp_arr_typename, truthy]

/-- C4 (amended): the Result Normalizer never overwrites a truthy existing
discriminator — an object whose `__typename` is truthy is returned unchanged —
and in the array case normalization is elementwise with every element that
carries a `__typename` key (JS objects have unique keys) keeping its original
discriminator value.  (As the counterexample shows, a present-but-falsy
top-level discriminator such as the empty string is treated as absent by the
JS guard `!data.__typename` and is replaced, so the amendment restricts the
top-level part of the claim to truthy discriminators.) -/
theorem setTypename_no_overwrite (f : String) :
    (∀ data, truthy (getProp data "__typename") = true → setTypename data f = data) ∧
    (∀ xs : List JsValue, setTypename (.arr xs) f
        = .arr (xs.map (kappaArrayItem (capitalizeFirstLetter f)))) ∧
    (∀ (fs : List (String × JsValue)) (v : JsValue), (fieldKeys fs).Nodup →
      lookupField fs "__typename" = some v →
      getProp (kappaArrayItem (capitalizeFirstLetter f) (.obj fs)) "__typename" = v) := by
  refine ⟨?_, setTypename_arr (f := f), ?_⟩
  · intro data h
    cases data with
    | obj fs => simp [setTypename, h]
    | arr xs =>
      rw [getProp_arr_typename] at h
      simp [truthy] at h
    | undefined => rfl
    | null => rfl
    | bool b => rfl
    | num n => rfl
    | str s => rfl
  · intro fs v hnd hv
    unfold kappaArrayItem
    have hobj : objSpreadFields (.obj fs) = fs := rfl
    simp only [getProp, hobj]
    rw [lookupField_spreadOnto fs [("__typename", .str (capitalizeFirstLetter f))]
      "__typename" hnd, hv]

/-- Witness for `setTypename_no_overwrite` at concrete inputs: a truthy
top-level discriminator survives, arrays are normalized elementwise, and an
element discriminator value is preserved. -/
theorem setTypename_no_overwrite_witness :
    setTypename (.obj [("__typename", .str "T"), ("id", .num 1)]) "x"
      = .obj [("__typename", .str "T"), ("id", .num 1)] ∧
    setTypename (.arr [.obj [("__typename", .str "E"), ("a", .num 2)]]) "x"
      = .arr [kappaArrayItem (capitalizeFirstLetter "x")
          (.obj [("__typename", .str "E"), ("a", .num 2)])] ∧
    getProp (kappaArrayItem (capitalizeFirstLetter "x")
      (.obj [("__typename", .str "E"), ("a", .num 2)])) "__typename" = .str "E" := by
  have h := setTypename_no_overwrite "x"
  exact ⟨h.1 _ (by decide), h.2.1 [.obj [("__typename", .str "E"), ("a", .num 2)]],
    h.2.2 [("__typename", .str "E"), ("a", .num 2)] (.str "E") (by decide) (by decide)⟩

/-- Counterexample to C4 as stated: the object `{__typename: ""}` carries a
discriminator (the key is present, value `""`), yet `setTypename` replaces it
with the capitalized field name, because the JS guard `!data.__typename`
tests truthiness, not presence. -/
theorem setTypename_empty_discriminator_counterexample :
    lookupField [("__typename", JsValue.str "")] "__typename" = some (JsValue.str "") ∧
    setTypename (.obj [("__typename", .str "")]) "x" = .obj [("__typename", .str "X")] ∧
    JsValue.str "X" ≠ JsValue.str "" := by
  decide

theorem allocElems_extends (cap : String) :
    ∀ (xs : List HVal) (h : Heap), ∃ ext, (allocElems cap h xs).1 = h ++ ext
  | [], h => ⟨[], by simp [allocElems]⟩
  | item :: rest, h => by
    obtain ⟨ext, hext⟩ := allocElems_extends cap rest
      (h ++ [HEntry.obj (spreadOnto [("__typename", HVal.str cap)] (spreadFieldsH h item))])
    exact ⟨HEntry.obj (spreadOnto [("__typename", HVal.str cap)] (spreadFieldsH h item)) :: ext,
      by simp [allocElems, hext]⟩

/-- C5: the Result Normalizer is copy-on-write.  In the heap model the output
heap is always an extension of the input heap — no pre-existing object or
array cell (in particular neither the input object nor any original array
element) is modified; a discriminator is only ever added on freshly
allocated copies. -/
theorem setTypenameH_no_mutation (h : Heap) (data : HVal) (fieldName : String) :
    ∃ ext, (setTypenameH h data fieldName).1 = h ++ ext := by
  cases data with
  | ref r =>
    by_cases ht : truthyHV (getTypenameH h (.ref r)) = true
    · exact ⟨[], by simp [setTypenameH, ht]⟩
    · cases hr : h[r]? with
      | none => exact ⟨[], by simp [setTypenameH, ht, hr]⟩
      | some entry =>
        cases entry with
        | obj fs =>
          exact ⟨[HEntry.obj (setField fs "__typename"
            (.str (capitalizeFirstLetter fieldName)))], by simp [setTypenameH, ht, hr]⟩
        | arr xs =>
          obtain ⟨ext, hext⟩ := allocElems_extends (capitalizeFirstLetter fieldName) xs h
          refine ⟨ext ++ [HEntry.arr (allocElems (capitalizeFirstLetter fieldName) h xs).2], ?_⟩
          simp [setTypenameH, ht, hr, hext]
  | undefined => exact ⟨[], by simp [setTypenameH]⟩
  | null => exact ⟨[], by simp [setTypenameH]⟩
  | bool b => exact ⟨[], by simp [setTypenameH]⟩
  | num n => exact ⟨[], by simp [setTypenameH]⟩
  | str s => exact ⟨[], by simp [setTypenameH]⟩

/-- C2 (amended): without a kappa directive, when the alias-keyed or the
field-name-keyed value on the parent is defined (non-undefined), the resolver
returns the alias-keyed value when it is truthy and otherwise the
field-name-keyed value — the source computes `aliasedNode || preAliasingNode`,
so preference between the two is decided by JS truthiness, not definedness:
a defined-but-falsy alias-keyed value is not preferred. -/
theorem resolver_alias_truthy_precedence (kappaApi : String → String → JsValue → JsValue)
    (resolvers : Resolvers) (type fieldName : String) (rootValue args context : JsValue)
    (info : ResolverInfo) (hk : info.kappa = none)
    (hd : getProp rootValue info.resultKey ≠ JsValue.undefined ∨
      getProp rootValue fieldName ≠ JsValue.undefined) :
    resolver kappaApi resolvers type fieldName rootValue args context info =
      (if truthy (getProp rootValue info.resultKey) then getProp rootValue info.resultKey
       else getProp rootValue fieldName) := by
  simp only [resolver, hk]
  rw [if_pos hd]

/-- Witness for `resolver_alias_truthy_precedence`: with parent
`{a: 7, f: 5}` and alias result key `a` for field `f`, the truthy alias-keyed
value 7 is returned. -/
theorem resolver_alias_truthy_precedence_witness :
    resolver (fun _ _ _ => .undefined) (fun _ => none) "Query" "f"
      (.obj [("a", .num 7), ("f", .num 5)]) .undefined .undefined ⟨"a", none⟩ = .num 7 := by
  rw [resolver_alias_truthy_precedence (fun _ _ _ => .undefined) (fun _ => none) "Query" "f"
    (.obj [("a", .num 7), ("f", .num 5)]) .undefined .undefined ⟨"a", none⟩ rfl
    (Or.inl (by decide))]
  decide

/-- Counterexample to C2 as stated: with parent `{a: 0, f: 5}` and alias
result key `a` for field `f`, the alias-keyed value is defined (`0`) yet the
resolver returns the field-name-keyed value `5`, because the source evaluates
`aliasedNode || preAliasingNode` and `0` is falsy — refuting the claim that a
defined falsy alias-keyed value is preferred. -/
theorem resolver_falsy_alias_counterexample :
    getProp (.obj [("a", .num 0), ("f", .num 5)]) "a" = JsValue.num 0 ∧
    resolver (fun _ _ _ => .undefined) (fun _ => none) "Query" "f"
      (.obj [("a", .num 0), ("f", .num 5)]) .undefined .undefined ⟨"a", none⟩ = .num 5 ∧
    JsValue.num 5 ≠ JsValue.num 0 := by
  decide

/-- C3 (amended): when both the alias-keyed and the field-name-keyed values
are undefined, the resolver consults the resolver map whenever a map for
`rootValue.__typename || type` is found and then returns the entry as-is when
it is not a function — in particular a found map with no entry for the field
yields `undefined`, not `null`; the `null` fallback applies only when no
resolver map exists for the type (the fallback value
`(aliasNeeded ? aliasedNode : preAliasingNode) || null` is then `null`, both
nodes being undefined on this path). -/
theorem resolver_map_lookup_fallback (kappaApi : String → String → JsValue → JsValue)
    (resolvers : Resolvers) (type fieldName : String) (rootValue args context : JsValue)
    (info : ResolverInfo) (hk : info.kappa = none)
    (ha : getProp rootValue info.resultKey = JsValue.undefined)
    (hp : getProp rootValue fieldName = JsValue.undefined) :
    (resolvers (typenameKey rootValue type) = none →
      resolver kappaApi resolvers type fieldName rootValue args context info = .null) ∧
    (∀ m, resolvers (typenameKey rootValue type) = some m → m fieldName = none →
      resolver kappaApi resolvers type fieldName rootValue args context info = .undefined) ∧
    (∀ m v, resolvers (typenameKey rootValue type) = some m →
      m fieldName = some (.value v) →
      resolver kappaApi resolvers type fieldName rootValue args context info = v) ∧
    (∀ m f, resolvers (typenameKey rootValue type) = some m →
      m fieldName = some (.fn f) →
      resolver kappaApi resolvers type fieldName rootValue args context info =
        setTypename (f rootValue args context info) fieldName) := by
  have hcond : ¬ (getProp rootValue info.resultKey ≠ JsValue.undefined ∨
      getProp rootValue fieldName ≠ JsValue.undefined) := by
    simp [ha, hp]
  refine ⟨?_, ?_, ?_, ?_⟩
  · intro hr
    simp only [resolver, hk]
    rw [if_neg hcond, hr]
    simp [ha, hp, truthy]
  · intro m hr hm
    simp only [resolver, hk]
    rw [if_neg hcond, hr]
    simp [hm]
  · intro m v hr hm
    simp only [resolver, hk]
    rw [if_neg hcond, hr]
    simp [hm]
  · intro m f hr hm
    simp only [resolver, hk]
    rw [if_neg hcond, hr]
    simp [hm]

/-- Witness for `resolver_map_lookup_fallback`: with an empty parent object,
no resolver map for `Query` yields `null`, and a map for `Query` with no
entry for the field yields `undefined`. -/
theorem resolver_map_lookup_fallback_witness :
    resolver (fun _ _ _ => .undefined) (fun _ => none) "Query" "foo" (.obj []) .undefined .undefined
      ⟨"foo", none⟩ = JsValue.null ∧
    resolver (fun _ _ _ => .undefined) (fun t => if t = "Query" then some (fun _ => none) else none)
      "Query" "foo" (.obj []) .undefined .undefined ⟨"foo", none⟩ = JsValue.undefined := by
  constructor
  · exact (resolver_map_lookup_fallback (fun _ _ _ => .undefined) (fun _ => none) "Query" "foo"
      (.obj []) .undefined .undefined ⟨"foo", none⟩ rfl rfl rfl).1 rfl
  · exact (resolver_map_lookup_fallback (fun _ _ _ => .undefined)
      (fun t => if t = "Query" then some (fun _ => none) else none) "Query" "foo"
      (.obj []) .undefined .undefined ⟨"foo", none⟩ rfl rfl rfl).2.1 (fun _ => none) rfl rfl

/-- Counterexample to C3 as stated: both parent values are undefined, a
resolver map for the type `Query` exists but has no entry for field `foo`,
and the resolver returns `undefined` (the JS code returns the non-function
entry `resolve`, which is `undefined`), not the `null` the claim requires. -/
theorem resolver_missing_entry_counterexample :
    resolver (fun _ _ _ => .undefined) (fun t => if t = "Query" then some (fun _ => none) else none)
      "Query" "foo" (.obj []) .undefined .undefined ⟨"foo", none⟩ = JsValue.undefined ∧
    JsValue.undefined ≠ JsValue.null := by
  decide

/-- C10: a field carrying `@kappa(view, method)` with an arguments object `A`
resolves to exactly `kappa.api[view][method](A)`: the equality holds for every
parent value and resolver table (alias lookup and the resolver map are
bypassed), and the view-API result is returned untouched — in particular no
`__typename` discriminator is injected into it. -/
theorem resolver_directive_method_call (kappaApi : String → String → JsValue → JsValue)
    (resolvers : Resolvers) (type fieldName : String) (rootValue context : JsValue)
    (afs : List (String × JsValue)) (info : ResolverInfo) (v m : String)
    (hk : info.kappa = some ⟨v, m⟩) :
    resolver kappaApi resolvers type fieldName rootValue (.obj afs) context info =
      kappaApi v m (.obj afs) := by
  simp [resolver, hk, truthy]

/-- Witness for `resolver_directive_method_call`: the method call result is
returned exactly, even though the parent has data under the field name and
the resolver map has an entry for it, and even though the result carries no
discriminator. -/
theorem resolver_directive_method_call_witness :
    resolver (fun view method a => .obj [("view", .str view), ("method", .str method), ("args", a)])
      (fun _ => some (fun _ => some (.value (.num 999)))) "Query" "items"
      (.obj [("items", .num 3)]) (.obj [("id", .num 1)]) .undefined
      ⟨"items", some ⟨"v1", "m1"⟩⟩ =
      .obj [("view", .str "v1"), ("method", .str "m1"), ("args", .obj [("id", .num 1)])] := by
  rw [resolver_directive_method_call
    (fun view method a => .obj [("view", .str view), ("method", .str method), ("args", a)])
    (fun _ => some (fun _ => some (.value (.num 999)))) "Query" "items"
    (.obj [("items", .num 3)]) .undefined [("id", .num 1)] ⟨"items", some ⟨"v1", "m1"⟩⟩
    "v1" "m1" rfl]

/-- C6: an object produced by a resolver-map function that carries no
`__typename` key is normalized so that its discriminator equals the field
name with its first letter capitalized; and the Result Normalizer is
idempotent: `setTypename (setTypename x g) g = setTypename x g` for all `x`
and `g`. -/
theorem resolver_discriminator_capitalized_and_idem
    (kappaApi : String → String → JsValue → JsValue) (resolvers : Resolvers)
    (type fieldName : String) (rootValue args context : JsValue) (info : ResolverInfo)
    (m : ResolverMap) (f : JsValue → JsValue → JsValue → ResolverInfo → JsValue)
    (dfs : List (String × JsValue))
    (hk : info.kappa = none)
    (ha : getProp rootValue info.resultKey = JsValue.undefined)
    (hp : getProp rootValue fieldName = JsValue.undefined)
    (hm : resolvers (typenameKey rootValue type) = some m)
    (hf : m fieldName = some (.fn f))
    (hd : f rootValue args context info = .obj dfs)
    (hnone : lookupField dfs "__typename" = none) :
    getProp (resolver kappaApi resolvers type fieldName rootValue args context info)
      "__typename" = .str (capitalizeFirstLetter fieldName) ∧
    ∀ x g, setTypename (setTypename x g) g = setTypename x g := by
  constructor
  · have hcond : ¬ (getProp rootValue info.resultKey ≠ JsValue.undefined ∨
        getProp rootValue fieldName ≠ JsValue.undefined) := by
      simp [ha, hp]
    have hres : resolver kappaApi resolvers type fieldName rootValue args context info =
        setTypename (.obj dfs) fieldName := by
      simp only [resolver, hk]
      rw [if_neg hcond, hm]
      simp [hf, hd]
    rw [hres]
    simp [setTypename, truthy, getProp, hnone, lookupField_setField_self]
  · exact fun x g => setTypename_idem x g

/-- Witness for `resolver_discriminator_capitalized_and_idem`: field `items`
resolved through a map function returning `{id: 1}` gets discriminator
`Items`, and idempotence holds at a concrete input. -/
theorem resolver_discriminator_capitalized_and_idem_witness :
    getProp (resolver (fun _ _ _ => .undefined)
      (fun t => if t = "Query" then
        some (fun fn => if fn = "items" then
          some (.fn (fun _ _ _ _ => .obj [("id", .num 1)])) else none) else none)
      "Query" "items" (.obj []) .undefined .undefined ⟨"items", none⟩) "__typename"
      = .str "Items" ∧
    setTypename (setTypename (.obj [("a", .num 2)]) "item") "item"
      = setTypename (.obj [("a", .num 2)]) "item" := by
  have h := resolver_discriminator_capitalized_and_idem (fun _ _ _ => .undefined)
    (fun t => if t = "Query" then
      some (fun fn => if fn = "items" then
        some (.fn (fun _ _ _ _ => .obj [("id", .num 1)])) else none) else none)
    "Query" "items" (.obj []) .undefined .undefined ⟨"items", none⟩
    (fun fn => if fn = "items" then
      some (.fn (fun _ _ _ _ => .obj [("id", .num 1)])) else none)
    (fun _ _ _ _ => .obj [("id", .num 1)]) [("id", .num 1)]
    rfl rfl rfl rfl rfl rfl (by decide)
  refine ⟨?_, h.2 (.obj [("a", .num 2)]) "item"⟩
  rw [h.1]
  decide

theorem find?_eq_head_filter {α : Type} (p : α → Bool) (l : List α) :
    l.find? p = (l.filter p).head? := by
  induction l with
  | nil => rfl
  | cons a t ih =>
    by_cases h : p a = true
    · rw [List.find?_cons_of_pos _ h, List.filter_cons_of_pos h, List.head?_cons]
    · rw [List.find?_cons_of_neg _ (by simpa using h),
        List.filter_cons_of_neg (by simpa using h), ih]

theorem stepSub_emit_other (b : Binding) (s : SubState) (v e : String) (p : JsValue)
    (hg : (v == b.view && e == b.event) = false) :
    stepSub b s (.emitEvent v e p) = (s, []) := by
  have hguard : (s.listenerBound && v == b.view && e == b.event) = false := by
    rw [Bool.and_assoc, hg, Bool.and_false]
  simp [stepSub, hguard]

/-- C7 (amended): `runSubscription` binds only the first kappa-annotated
field of the document's pre-order traversal (`visit` + `BREAK`); triggering
an event for a later annotated field's `(view, event)` pair produces no
emission, provided that pair differs from the first field's pair.  (When a
later annotated field carries the same pair as the first, the event does
produce an emission through the first field's listener — see the
counterexample — which is the one restriction the amendment adds.) -/
theorem subscription_first_field_only (doc : List SelNode)
    (subResolvers : String → Option SubEntry) (vars : JsValue)
    (n₁ v₁ e₁ : String) (c₁ rest : List SelNode)
    (n₂ v₂ e₂ : String) (c₂ : List SelNode) (p : JsValue)
    (h1 : (preorder doc).filter isKappaField = .field n₁ (some (v₁, e₁)) c₁ :: rest)
    (_h2 : SelNode.field n₂ (some (v₂, e₂)) c₂ ∈ rest)
    (hne : (v₂, e₂) ≠ (v₁, e₁)) :
    bindingOf doc subResolvers vars = some ⟨n₁, v₁, e₁, subFilter subResolvers n₁, vars⟩ ∧
    (runSub ⟨n₁, v₁, e₁, subFilter subResolvers n₁, vars⟩ initialSubState
      [.subscribeCall, .readyFire, .emitEvent v₂ e₂ p]).2 = [] := by
  constructor
  · unfold bindingOf
    rw [find?_eq_head_filter, h1]
    rfl
  · have hg : (v₂ == v₁ && e₂ == e₁) = false := by
      by_cases hv : v₂ = v₁
      · subst hv
        have he : ¬ e₂ = e₁ := fun hh => hne (by rw [hh])
        simp [he]
      · simp [hv]
    have t1 : stepSub (⟨n₁, v₁, e₁, subFilter subResolvers n₁, vars⟩ : Binding)
        initialSubState .subscribeCall = (⟨false, true, false, false⟩, []) := rfl
    have t2 : stepSub (⟨n₁, v₁, e₁, subFilter subResolvers n₁, vars⟩ : Binding)
        ⟨false, true, false, false⟩ .readyFire = (⟨true, false, true, true⟩, []) := rfl
    have t3 := stepSub_emit_other (⟨n₁, v₁, e₁, subFilter subResolvers n₁, vars⟩ : Binding)
      ⟨true, false, true, true⟩ v₂ e₂ p hg
    simp only [runSub, t1, t2, t3]
    rfl

/-- Witness for `subscription_first_field_only`: two annotated fields with
distinct events; the binding is for the first, and the second field's event
yields no emission. -/
theorem subscription_first_field_only_witness :
    bindingOf [.field "a" (some ("v", "e1")) [], .field "b" (some ("v", "e2")) []]
      (fun _ => none) .null = some ⟨"a", "v", "e1", subFilter (fun _ => none) "a", .null⟩ ∧
    (runSub ⟨"a", "v", "e1", subFilter (fun _ => none) "a", .null⟩ initialSubState
      [.subscribeCall, .readyFire, .emitEvent "v" "e2" (.num 1)]).2 = [] :=
  subscription_first_field_only
    [.field "a" (some ("v", "e1")) [], .field "b" (some ("v", "e2")) []]
    (fun _ => none) .null "a" "v" "e1" [] [.field "b" (some ("v", "e2")) []]
    "b" "v" "e2" [] (.num 1)
    (by simp [preorder, isKappaField]) (by simp) (by decide)

/-- Counterexample to C7 as stated: a subscription document with two
annotated fields `a` and `b` carrying the same `("v", "e")` pair.  Only `a`
is bound, but triggering an event for the second field's `(view, event)` pair
does produce an emission (through the first field's listener), so
"triggering an event for any later annotated field's (view, event) pair
produces no emission" fails when the pairs coincide. -/
theorem subscription_same_pair_counterexample :
    (preorder [.field "a" (some ("v", "e")) [], .field "b" (some ("v", "e")) []]).filter
        isKappaField
      = [.field "a" (some ("v", "e")) [], .field "b" (some ("v", "e")) []] ∧
    bindingOf [.field "a" (some ("v", "e")) [], .field "b" (some ("v", "e")) []]
      (fun _ => none) .null = some ⟨"a", "v", "e", none, .null⟩ ∧
    (runSub (⟨"a", "v", "e", none, .null⟩ : Binding)
      initialSubState [.subscribeCall, .readyFire, .emitEvent "v" "e" (.num 1)]).2 ≠ [] := by
  refine ⟨by simp [preorder, isKappaField], ?_, ?_⟩
  · unfold bindingOf
    rw [find?_eq_head_filter]
    simp [preorder, isKappaField, subFilter]
  · simp [runSub, stepSub, initialSubState, mkEmission]

theorem stepSub_no_emission (b : Binding) (f : JsValue → JsValue → JsValue)
    (hf : b.filter = some f) (hfalse : ∀ d a, truthy (f d a) = false)
    (s : SubState) (a : SubAction) : (stepSub b s a).2 = [] := by
  cases a with
  | subscribeCall => by_cases h : s.readyFired = true <;> simp [stepSub, h]
  | readyFire =>
    by_cases h : s.readyFired = true
    · simp [stepSub, h]
    · by_cases h2 : s.cbQueued = true <;> simp [stepSub, h, h2]
  | unsubCall => by_cases h : s.unsubVar = true <;> simp [stepSub, h]
  | emitEvent v e d =>
    by_cases hg : (s.listenerBound && v == b.view && e == b.event) = true
    · simp [stepSub, hg, hf, hfalse d b.args]
    · simp [stepSub, hg]

/-- C8: for a bound subscription, a filter that is falsy on every datum
suppresses all emissions no matter which and how many actions occur; and a
single event on the subscribed `(view, event)` pair whose datum passes the
filter (or with no filter configured) yields exactly one emission, shaped
`{ data: { [fieldName]: setTypename(payload, fieldName) } }` — the payload
passed through the Result Normalizer keyed by the field name. -/
theorem subscription_filter_behavior (b : Binding) :
    (∀ f, b.filter = some f → (∀ d a, truthy (f d a) = false) →
      ∀ (acts : List SubAction) (s : SubState), (runSub b s acts).2 = []) ∧
    (∀ (d : JsValue) (s : SubState), s.listenerBound = true →
      (b.filter = none ∨ ∃ f, b.filter = some f ∧ truthy (f d b.args) = true) →
      (runSub b s [.emitEvent b.view b.event d]).2
        = [.obj [("data", .obj [(b.name, setTypename d b.name)])]]) := by
  constructor
  · intro f hf hfalse acts
    induction acts with
    | nil => intro s; rfl
    | cons a rest ih =>
      intro s
      simp only [runSub]
      rw [stepSub_no_emission b f hf hfalse s a, ih]
      rfl
  · intro d s hs hor
    have hguard : (s.listenerBound && b.view == b.view && b.event == b.event) = true := by
      simp [hs]
    rcases hor with hnone | ⟨f, hf, htrue⟩
    · simp [runSub, stepSub, hguard, hs, hnone, mkEmission]
    · simp [runSub, stepSub, hguard, hs, hf, htrue, mkEmission]

/-- Witness for `subscription_filter_behavior`: an always-false filter yields
no emissions over repeated events, and a bound filterless subscription emits
`{ data: { onItem: normalized payload } }` for one event. -/
theorem subscription_filter_behavior_witness :
    (runSub ⟨"n", "v", "e", some (fun _ _ => .bool false), .null⟩ initialSubState
      [.subscribeCall, .readyFire, .emitEvent "v" "e" (.num 1),
        .emitEvent "v" "e" (.num 2)]).2 = [] ∧
    (runSub (⟨"onItem", "items", "added", none, .null⟩ : Binding)
      ⟨true, false, true, true⟩
      [.emitEvent "items" "added" (.obj [("id", .str "x1")])]).2
      = [.obj [("data", .obj [("onItem",
          setTypename (.obj [("id", .str "x1")]) "onItem")])]] := by
  constructor
  · exact (subscription_filter_behavior _).1 (fun _ _ => .bool false) rfl (fun d a => rfl) _ _
  · exact (subscription_filter_behavior _).2 (.obj [("id", .str "x1")]) _ rfl (Or.inl rfl)

theorem selections_withKappaContext (typeDefs : Option (List String)) (kappaVal : JsValue)
    (op : Operation) :
    (withKappaContext typeDefs kappaVal op).selections = op.selections := by
  cases typeDefs <;> rfl

/-- C9: when the operation's document contains no kappa directive anywhere,
`request` returns exactly `forward(operation)` — the operation carrying the
context extensions `request` performs unconditionally beforehand — and
returns JS `undefined` when no `forward` is supplied (no further execution);
in neither case (indeed for no `forward` argument at all) does it enter the
directive-handling paths `runQuery` or `runSubscription`. -/
theorem request_passthrough (typeDefs : Option (List String)) (kappaVal : JsValue)
    (op : Operation) (f : Operation → JsValue)
    (h : hasKappaDirective op.selections = false) :
    request typeDefs kappaVal op (some f)
      = .forwardResult (f (withKappaContext typeDefs kappaVal op)) ∧
    request typeDefs kappaVal op none = .undefinedResult ∧
    (∀ (fw : Option (Operation → JsValue)) (t : String) (o : Operation),
      request typeDefs kappaVal op fw ≠ .ranQuery t o ∧
      request typeDefs kappaVal op fw ≠ .ranSubscription t o) := by
  have hsel : hasKappaDirective (withKappaContext typeDefs kappaVal op).selections = false := by
    rw [selections_withKappaContext]
    exact h
  refine ⟨?_, ?_, ?_⟩
  · simp [request, hsel]
  · simp [request, hsel]
  · intro fw t o
    cases fw <;> constructor <;> simp [request, hsel]

/-- Witness for `request_passthrough`: a one-field document without the
directive is forwarded (result 42), and yields undefined without `forward`. -/
theorem request_passthrough_witness :
    request none .null ⟨some "query", [.field "plain" none []], .null, .obj []⟩
      (some (fun _ => .num 42)) = .forwardResult (.num 42) ∧
    request none .null ⟨some "query", [.field "plain" none []], .null, .obj []⟩ none
      = .undefinedResult := by
  have h := request_passthrough none .null
    ⟨some "query", [.field "plain" none []], .null, .obj []⟩ (fun _ => .num 42)
    (by simp [hasKappaDirective, preorder, isKappaField])
  exact ⟨h.1, h.2.1⟩

/-- C1 (code bug): an `unsubscribe` invoked before the readiness gate fires
is silently dropped — `if (unsubscribe)` sees the still-unassigned closure
variable — so when the gate later fires, the queued subscribe callback still
registers the event listener, and an event for the subscribed (view, event)
pair then produces an emission.  Evaluating the model on the trace
subscribe → unsubscribe → ready → emit: the listener remains bound and an
emission `{data: {onItem: {id: "x1", __typename: "OnItem"}}}` is produced,
contradicting the claim that no listener remains and no emission occurs. -/
theorem runSub_dropped_unsubscribe_eval :
    (runSub (⟨"onItem", "items", "added", none, .undefined⟩ : Binding) initialSubState
      [.subscribeCall, .unsubCall, .readyFire,
        .emitEvent "items" "added" (.obj [("id", .str "x1")])]).1.listenerBound = true ∧
    (runSub (⟨"onItem", "items", "added", none, .undefined⟩ : Binding) initialSubState
      [.subscribeCall, .unsubCall, .readyFire,
        .emitEvent "items" "added" (.obj [("id", .str "x1")])]).2
      = [.obj [("data", .obj [("onItem",
          .obj [("id", .str "x1"), ("__typename", .str "OnItem")])])]] := by
  refine ⟨rfl, by decide⟩

end ApolloKappa
